import Mathlib

/-!
# Verification of the base-ft-rw-app-go handler wrappers

Shallow embedding of `handler_wrappers.go` (package `baseftrwapp`):

* the capability-preserving response-writer construction `makeLogger`
  with its four concrete wrapper types (`responseLogger`, `hijackLogger`,
  `closeNotifyWriter`, `hijackCloseNotifier`),
* the per-request write-tracking state (`status`, `size`) and the
  operations the inner handler can perform on the observing sink
  (`Write`, `WriteHeader`, `Hijack`, `Flush`),
* the logging decorator `transactionAwareRequestLoggingHandler.ServeHTTP`
  together with `writeRequestLog`,
* the metrics decorator `httpMetricsHandler.ServeHTTP` over a model of the
  `go-metrics` timer registry.

Machine integers do not overflow in any modelled computation (statuses and
byte counts are small non-negative ints), so they are embedded as `Nat`.
-/

namespace BaseFtRwApp

/-! ## Capability model of the real response sink

A Go `http.ResponseWriter` may additionally implement the optional
interfaces `http.Hijacker`, `http.CloseNotifier` and `http.Flusher`;
`makeLogger` discovers these by runtime type assertions.  A real sink is
therefore characterised by which of the optional interfaces its dynamic
type carries. -/

structure RealSinkCaps where
  hijacker : Bool
  closeNotifier : Bool
  flusher : Bool
  deriving DecidableEq, Repr

/-- The four concrete wrapper types that `makeLogger` can return.
`closeNotifyWriter` and `hijackCloseNotifier` embed the
`loggingResponseWriter` interface; in `closeNotifyWriter` the embedded
value is always a `*responseLogger` (it is only built when the `logger`
variable failed the `http.Hijacker` assertion). -/
inductive Wrapper where
  | responseLogger
  | hijackLogger
  | closeNotifyWriter
  | hijackCloseNotifier
  deriving DecidableEq, Repr

namespace Wrapper

/-- Runtime probe `logger.(http.Hijacker)`: per Go method sets, only
`hijackLogger` (via its `Hijack` method) and `hijackCloseNotifier`
(via its embedded `http.Hijacker`) satisfy the interface. -/
def isHijacker : Wrapper → Bool
  | responseLogger => false
  | hijackLogger => true
  | closeNotifyWriter => false
  | hijackCloseNotifier => true

/-- Runtime probe `logger.(http.CloseNotifier)`: only the two variants
that embed an `http.CloseNotifier` satisfy the interface. -/
def isCloseNotifier : Wrapper → Bool
  | responseLogger => false
  | hijackLogger => false
  | closeNotifyWriter => true
  | hijackCloseNotifier => true

/-- Runtime probe `logger.(http.Flusher)`: every variant satisfies it,
because `responseLogger` has a `Flush` method and the other three reach it
through embedding (the `loggingResponseWriter` interface itself includes
`http.Flusher`). -/
def isFlusher : Wrapper → Bool
  | _ => true

/-- The write-tracking capability (the `Status()` / `Size()` accessors of
the `loggingResponseWriter` interface): present on every variant. -/
def tracksStatusSize : Wrapper → Bool
  | _ => true

end Wrapper

/-- Shallow embedding of `makeLogger` (handler_wrappers.go:48-62).  The
`ok1` probe is taken on the `logger` variable (the wrapper built so far),
exactly as in the source, not on `w` directly. -/
def makeLogger (w : RealSinkCaps) : Wrapper :=
  let logger := if w.hijacker then Wrapper.hijackLogger else Wrapper.responseLogger
  let ok1 := logger.isHijacker
  let ok2 := w.closeNotifier
  if ok1 && ok2 then Wrapper.hijackCloseNotifier
  else if ok2 then Wrapper.closeNotifyWriter
  else logger

/-! ## Write-tracking state and sink operations

`responseLogger` carries `status` (0 = unset) and `size` (cumulative bytes).
The inner handler drives the observing sink through a sequence of events;
a `write` event carries both the byte count the handler passed and the
count the real sink reported back (`size, err := l.w.Write(b)`), since the
source accumulates the reported count. -/

structure LoggerState where
  status : Nat
  size : Nat
  deriving DecidableEq, Repr

/-- The zero value of `responseLogger`: headers unsent, nothing written. -/
def initLogger : LoggerState := ⟨0, 0⟩

/-- One operation the inner handler performs on the observing sink.
`write passed ret`: a `Write` of `passed` bytes for which the real sink
reported `ret` bytes accepted.  `hijack ok`: a `Hijack` call for which the
real sink returned nil error iff `ok`. -/
inductive Event where
  | write (passed ret : Nat)
  | writeHeader (code : Nat)
  | hijack (ok : Bool)
  | flush
  deriving DecidableEq, Repr

/-- Effect of one sink operation on the tracked state, from the source:
`responseLogger.Write` (lines 83-91) sets `status` to 200 when still 0 and
adds the reported count to `size`; `responseLogger.WriteHeader`
(lines 93-96) records the code unconditionally; `hijackLogger.Hijack`
(lines 117-126) sets `status` to 101 only on success with `status` still
0; `Flush` does not touch the tracked state. -/
def step (st : LoggerState) : Event → LoggerState
  | Event.write _ ret =>
      let st1 := if st.status = 0 then { st with status := 200 } else st
      { st1 with size := st1.size + ret }
  | Event.writeHeader code => { st with status := code }
  | Event.hijack ok =>
      if ok && st.status == 0 then { st with status := 101 } else st
  | Event.flush => st

/-- The tracked state after the inner handler performed `es` on a freshly
constructed observing sink. -/
def run (es : List Event) : LoggerState := (es.foldl step initLogger)

/-- Does the trace contain a `Write` call? -/
def hasWrite (es : List Event) : Bool :=
  es.any fun e => match e with | Event.write _ _ => true | _ => false

/-- Does the trace contain a `WriteHeader` call? -/
def hasWriteHeader (es : List Event) : Bool :=
  es.any fun e => match e with | Event.writeHeader _ => true | _ => false

/-- Does the trace contain a `Hijack` call that succeeded? -/
def hasSuccessfulHijack (es : List Event) : Bool :=
  es.any fun e => match e with | Event.hijack ok => ok | _ => false

/-- Sum of the byte counts the inner handler passed to `Write`. -/
def passedSum (es : List Event) : Nat :=
  (es.map fun e => match e with | Event.write p _ => p | _ => 0).sum

/-- Sum of the byte counts the real sink reported back from `Write`. -/
def retSum (es : List Event) : Nat :=
  (es.map fun e => match e with | Event.write _ r => r | _ => 0).sum

/-! ## Hijack forwarding

`hijackLogger.Hijack` (lines 117-126) calls the real sink's `Hijack` and
returns its `(net.Conn, *bufio.ReadWriter, error)` triple unchanged; `conn`
and `rw` are opaque to the wrapper and modelled as tokens. -/

structure HijackResult where
  conn : Nat
  rw : Nat
  err : Option String
  deriving DecidableEq, Repr

/-- Shallow embedding of `hijackLogger.Hijack`: given the tracked state and
the triple the real sink's `Hijack` produced, returns the new tracked state
and the triple handed back to the caller. -/
def hijackLoggerHijack (st : LoggerState) (res : HijackResult) :
    LoggerState × HijackResult :=
  let st1 := if res.err.isNone && st.status == 0
    then { st with status := 101 } else st
  (st1, res)

/-! ## Flush forwarding

`responseLogger.Flush` (lines 106-111) probes the real sink for
`http.Flusher` and forwards only when the probe succeeds.  All four wrapper
variants dispatch `Flush` to this method through embedding.  The real
sink's observable flush activity is modelled as a counter. -/

structure RealSink where
  caps : RealSinkCaps
  flushCount : Nat
  deriving DecidableEq, Repr

/-- Shallow embedding of `responseLogger.Flush`: forwards to the real sink
when it is an `http.Flusher`, otherwise does nothing.  A total function:
the guarded probe means no failure occurs either way. -/
def responseLoggerFlush (s : RealSink) : RealSink :=
  if s.caps.flusher then { s with flushCount := s.flushCount + 1 } else s

/-! ## Requests, URLs and the log record

Only the request fields `writeRequestLog` reads are modelled.  `url.URL` is
an external collaborator; of it we keep the user-info component and the
string its `RequestURI()` method reconstructs. -/

structure URL where
  username : Option String
  reconstructedURI : String
  deriving DecidableEq, Repr

structure Request where
  method : String
  requestURI : String
  protoMajor : Nat
  proto : String
  host : String
  remoteAddr : String
  referer : String
  userAgent : String
  url : URL
  deriving DecidableEq, Repr

structure LogRecord where
  time : Nat
  host : String
  username : String
  method : String
  transactionID : String
  uri : String
  protocol : String
  status : Nat
  size : Nat
  referer : String
  userAgent : String
  deriving DecidableEq, Repr

/-- Model of the external `net.SplitHostPort`, restricted to what the
source consumes (the host part): splits at the last colon, reporting
failure (`none`) when the address has no colon at all. -/
def splitHostPortHost (s : String) : Option String :=
  let parts := s.splitOn ":"
  if parts.length ≤ 1 then none
  else some (String.intercalate ":" parts.dropLast)

/-- The `username` computation of `writeRequestLog` (lines 143-148):
placeholder `-` unless the captured URL carries a non-empty user name. -/
def logUsername (u : URL) : String :=
  match u.username with
  | some name => if name = "" then "-" else name
  | none => "-"

/-- The `host` computation of `writeRequestLog` (lines 150-154): strip the
port from the remote address, falling back to the raw string when the
split fails. -/
def logHost (remoteAddr : String) : String :=
  match splitHostPortHost remoteAddr with
  | some h => h
  | none => remoteAddr

/-- The `uri` computation of `writeRequestLog` (lines 156-166): the raw
request URI, replaced by the authority (`req.Host`) for an HTTP/2 CONNECT
request, with a final fallback to the URI reconstructed from the captured
URL snapshot when the chosen string is empty. -/
def logUri (req : Request) (u : URL) : String :=
  let uri := req.requestURI
  let uri := if req.protoMajor = 2 ∧ req.method = "CONNECT"
    then req.host else uri
  if uri = "" then u.reconstructedURI else uri

/-- The field-keyed record `writeRequestLog` emits (lines 168-181). -/
def mkLogRecord (req : Request) (transactionID : String) (u : URL)
    (ts : Nat) (status size : Nat) : LogRecord :=
  { time := ts
    host := logHost req.remoteAddr
    username := logUsername u
    method := req.method
    transactionID := transactionID
    uri := logUri req u
    protocol := req.proto
    status := status
    size := size
    referer := req.referer
    userAgent := req.userAgent }

/-- Shallow embedding of `writeRequestLog` (lines 142-181).  The function
receives the supplied log sink `w` (modelled as the list of byte chunks
written to it so far) but its body contains no write to `w`; the single
record is emitted through the package-global logrus logger
(`log.WithFields(...).Info("")`).  The result is the sink's content after
the call together with the records emitted to the global logger. -/
def writeRequestLog (w : List String) (req : Request)
    (transactionID : String) (u : URL) (ts : Nat) (status size : Nat) :
    List String × List LogRecord :=
  (w, [mkLogRecord req transactionID u ts status size])

/-! ## The logging decorator

`transactionAwareRequestLoggingHandler.ServeHTTP` (lines 39-46): resolve
the transaction ID, take the start time, build the observing sink, snapshot
`*req.URL`, run the inner handler, then call `writeRequestLog` with the
final tracked status and size.  The inner handler is modelled as a function
from the request to the sequence of operations it performs on the observing
sink together with the (possibly mutated) request it leaves behind; the
decorator's observable behaviour is the ordered list of actions. -/

inductive Action where
  | inner (e : Event)
  | emit (r : LogRecord)
  deriving DecidableEq, Repr

/-- Is this action the emission of a log record? -/
def Action.isEmit : Action → Bool
  | Action.inner _ => false
  | Action.emit _ => true

/-- Shallow embedding of
`transactionAwareRequestLoggingHandler.ServeHTTP`.  `getTid` models the
external `GetTransactionIdFromRequest`, `now` the captured start time and
`out` the content of the supplied log sink.  Returns the ordered action
trace of the whole call and the sink's final content. -/
def serveHTTP (getTid : Request → String) (now : Nat) (out : List String)
    (req : Request) (inner : Request → List Event × Request) :
    List Action × List String :=
  let transactionID := getTid req
  let u := req.url
  let (es, req1) := inner req
  let st := run es
  let (out1, recs) := writeRequestLog out req1 transactionID u now st.status st.size
  (es.map Action.inner ++ recs.map Action.emit, out1)

/-! ## The metrics decorator

`httpMetricsHandler.ServeHTTP` (lines 24-27) fetches (lazily registering)
the timer named by the request method from the process-wide default
registry and times the inner handler call.  The registry is modelled as an
association list from timer name to the number of recorded samples; the
response sink is an arbitrary type the decorator merely passes through. -/

abbrev Registry := List (String × Nat)

/-- Number of samples recorded against the named timer (0 when absent). -/
def sampleCount (reg : Registry) (name : String) : Nat :=
  match reg.find? fun p => p.1 == name with
  | some p => p.2
  | none => 0

/-- The registered timer names, in registration order. -/
def timerNames (reg : Registry) : List String := reg.map Prod.fst

/-- Is a timer of this name registered? -/
def hasTimer (reg : Registry) (name : String) : Bool :=
  reg.any fun p => p.1 == name

/-- Model of `metrics.GetOrRegisterTimer`: reuse the existing timer, else
register a fresh one with no samples. -/
def getOrRegisterTimer (name : String) (reg : Registry) : Registry :=
  if hasTimer reg name then reg else reg ++ [(name, 0)]

/-- Model of `Timer.Time`'s effect on the registry: one more sample on the
named timer. -/
def recordSample (name : String) (reg : Registry) : Registry :=
  reg.map fun p => if p.1 == name then (p.1, p.2 + 1) else p

/-- Shallow embedding of `httpMetricsHandler.ServeHTTP`: register/fetch the
timer named by the method, run the inner handler on the untouched request
and response sink, record one elapsed-time sample.  Returns the updated
registry and the sink as the inner handler left it. -/
def httpMetricsServeHTTP {W : Type} (inner : Request → W → W)
    (reg : Registry) (req : Request) (w : W) : Registry × W :=
  let reg1 := getOrRegisterTimer req.method reg
  (recordSample req.method reg1, inner req w)

/-! ## Decidable side conditions on traces -/

/-- Every `Write` in the trace was fully accepted by the real sink, i.e.
the reported count equals the passed count (the `io.Writer` contract for
error-free writes). -/
def writesAccepted (es : List Event) : Bool :=
  es.all fun e => match e with | Event.write p r => r == p | _ => true

/-- Every `WriteHeader` in the trace carries a non-zero code (any valid
HTTP status; 0 is the sentinel for "unset"). -/
def writeHeadersNonzero (es : List Event) : Bool :=
  es.all fun e => match e with | Event.writeHeader c => c != 0 | _ => true

/-- Every `WriteHeader` in the trace carries exactly the code `s` (normal
operation: no later finalization call with a different value). -/
def writeHeadersEq (s : Nat) (es : List Event) : Bool :=
  es.all fun e => match e with | Event.writeHeader c => c == s | _ => true

/-! ## Sample inputs used by witnesses -/

def sampleURL : URL := { username := none, reconstructedURI := "/" }

def sampleReq : Request :=
  { method := "GET", requestURI := "/", protoMajor := 1
    proto := "HTTP/1.1", host := "example.com"
    remoteAddr := "10.0.0.1:555", referer := "", userAgent := "ua"
    url := sampleURL }

/-- The HTTP/2 CONNECT example from the spec: empty raw URI, authority
`proxy.example:443`. -/
def connectReq : Request :=
  { method := "CONNECT", requestURI := "", protoMajor := 2
    proto := "HTTP/2.0", host := "proxy.example:443"
    remoteAddr := "10.0.0.1:555", referer := "", userAgent := "ua"
    url := sampleURL }

/-! ## Helper lemmas on the write-tracking state machine -/

theorem step_size (st : LoggerState) (e : Event) :
    (step st e).size =
      st.size + (match e with | Event.write _ r => r | _ => 0) := by
  cases e with
  | write p r => simp only [step]; split <;> rfl
  | writeHeader c => rfl
  | hijack ok => simp only [step]; split <;> rfl
  | flush => rfl

theorem foldl_step_size (es : List Event) (st : LoggerState) :
    (es.foldl step st).size = st.size + retSum es := by
  induction es generalizing st with
  | nil => simp [retSum]
  | cons e tl ih =>
      simp only [List.foldl_cons, retSum, List.map_cons, List.sum_cons]
      rw [ih, step_size]
      simp only [retSum]
      omega

theorem retSum_eq_passedSum (es : List Event)
    (h : writesAccepted es = true) : retSum es = passedSum es := by
  induction es with
  | nil => rfl
  | cons e tl ih =>
      simp only [writesAccepted, List.all_cons, Bool.and_eq_true] at h
      simp only [retSum, passedSum, List.map_cons, List.sum_cons] at *
      cases e with
      | write p r =>
          have : r = p := by simpa using h.1
          rw [this, ih h.2]
      | writeHeader c => rw [ih h.2]
      | hijack ok => rw [ih h.2]
      | flush => rw [ih h.2]

/-- Once `status` is the non-zero value `s` and every later `WriteHeader`
carries `s` again, the folded status stays `s`. -/
theorem foldl_step_status_stable (es : List Event) (st : LoggerState)
    (s : Nat) (hst : st.status = s) (hs : s ≠ 0)
    (hwh : writeHeadersEq s es = true) :
    (es.foldl step st).status = s := by
  induction es generalizing st with
  | nil => simpa using hst
  | cons e tl ih =>
      simp only [writeHeadersEq, List.all_cons, Bool.and_eq_true] at hwh
      refine ih _ ?_ hwh.2
      cases e with
      | write p r =>
          simp only [step]
          rw [if_neg (by rw [hst]; exact hs)]
          exact hst
      | writeHeader c =>
          have : c = s := by simpa using hwh.1
          simpa [step]
      | hijack ok =>
          simp only [step]
          rw [if_neg (by simp [hst, hs])]
          exact hst
      | flush => exact hst

/-- With no `WriteHeader` and no successful `Hijack` in the trace, the
status is fully determined: unchanged when already set, else 200 exactly
when some byte was written. -/
theorem foldl_step_status_no_wh (es : List Event) (st : LoggerState)
    (hwh : hasWriteHeader es = false)
    (hhj : hasSuccessfulHijack es = false) :
    (es.foldl step st).status =
      if st.status = 0 then (if hasWrite es then 200 else 0)
      else st.status := by
  induction es generalizing st with
  | nil =>
      by_cases h0 : st.status = 0 <;> simp [hasWrite, h0]
  | cons e tl ih =>
      simp only [hasWriteHeader, List.any_cons, Bool.or_eq_false_iff] at hwh
      simp only [hasSuccessfulHijack, List.any_cons, Bool.or_eq_false_iff] at hhj
      cases e with
      | write p r =>
          rw [List.foldl_cons, ih _ hwh.2 hhj.2]
          by_cases h0 : st.status = 0
          · simp [step, h0, hasWrite]
          · simp [step, h0, hasWrite, List.any_cons]
      | writeHeader c => simp at hwh
      | hijack ok =>
          have hok : ok = false := hhj.1
          subst hok
          rw [List.foldl_cons, ih _ hwh.2 hhj.2]
          simp [step, hasWrite, List.any_cons]
      | flush =>
          rw [List.foldl_cons, ih _ hwh.2 hhj.2]
          simp [step, hasWrite, List.any_cons]

/-- A trace without any `WriteHeader` vacuously satisfies any
`writeHeadersEq` condition. -/
theorem writeHeadersEq_of_no_wh (s : Nat) (es : List Event)
    (h : hasWriteHeader es = false) : writeHeadersEq s es = true := by
  induction es with
  | nil => rfl
  | cons e tl ih =>
      simp only [hasWriteHeader, List.any_cons, Bool.or_eq_false_iff] at h
      simp only [writeHeadersEq, List.all_cons, Bool.and_eq_true]
      refine ⟨?_, ih h.2⟩
      cases e with
      | writeHeader c => simp at h
      | write p r => rfl
      | hijack ok => rfl
      | flush => rfl

/-- Once a byte is written or a non-zero status recorded, the folded
status can never return to the unset sentinel 0. -/
theorem foldl_step_status_ne_zero (es : List Event) (st : LoggerState)
    (hwh : writeHeadersNonzero es = true)
    (h : st.status ≠ 0 ∨ hasWrite es = true ∨ hasWriteHeader es = true) :
    (es.foldl step st).status ≠ 0 := by
  induction es generalizing st with
  | nil =>
      simp only [hasWrite, hasWriteHeader, List.any_nil, or_false] at h
      simpa using h
  | cons e tl ih =>
      simp only [writeHeadersNonzero, List.all_cons, Bool.and_eq_true] at hwh
      rw [List.foldl_cons]
      refine ih _ hwh.2 ?_
      cases e with
      | write p r =>
          left
          simp only [step]
          split <;> simp_all
      | writeHeader c =>
          left
          have : c ≠ 0 := by simpa using hwh.1
          simpa [step]
      | hijack ok =>
          by_cases h0 : st.status = 0
          · rcases h with h | h | h
            · exact absurd h0 h
            · right; left
              simpa [hasWrite, List.any_cons] using h
            · right; right
              simpa [hasWriteHeader, List.any_cons] using h
          · left
            simp only [step]
            split <;> simp_all
      | flush =>
          rcases h with h | h | h
          · left; exact h
          · right; left
            simpa [hasWrite, List.any_cons] using h
          · right; right
            simpa [hasWriteHeader, List.any_cons] using h

/-! ## Helper lemmas on the timer registry -/

theorem sampleCount_cons (p : String × Nat) (tl : Registry) (name : String) :
    sampleCount (p :: tl) name =
      if p.1 = name then p.2 else sampleCount tl name := by
  by_cases hp : p.1 = name
  · simp [sampleCount, List.find?_cons_of_pos, hp]
  · simp [sampleCount, List.find?_cons_of_neg, hp]

theorem hasTimer_cons (p : String × Nat) (tl : Registry) (name : String) :
    hasTimer (p :: tl) name = (p.1 == name || hasTimer tl name) := by
  simp [hasTimer]

theorem sampleCount_recordSample_self (reg : Registry) (name : String)
    (h : hasTimer reg name = true) :
    sampleCount (recordSample name reg) name = sampleCount reg name + 1 := by
  induction reg with
  | nil => simp [hasTimer] at h
  | cons p tl ih =>
      by_cases hp : p.1 = name
      · simp [recordSample, sampleCount_cons, hp]
      · have h1 : hasTimer tl name = true := by
          rw [hasTimer_cons] at h
          simpa [hp] using h
        simp only [recordSample, List.map_cons] at *
        rw [if_neg (by simpa using hp)]
        rw [sampleCount_cons, if_neg hp, sampleCount_cons, if_neg hp]
        exact ih h1

theorem sampleCount_recordSample_other (reg : Registry) (name n : String)
    (h : n ≠ name) :
    sampleCount (recordSample name reg) n = sampleCount reg n := by
  induction reg with
  | nil => rfl
  | cons p tl ih =>
      simp only [recordSample, List.map_cons] at *
      by_cases hp : p.1 = name
      · rw [if_pos (by simpa using hp), sampleCount_cons, sampleCount_cons]
        rw [if_neg (by simp [hp]; exact fun hh => (h hh.symm).elim)]
        rw [if_neg (by rw [hp]; exact fun hh => (h hh.symm).elim)]
        exact ih
      · rw [if_neg (by simpa using hp), sampleCount_cons, sampleCount_cons]
        by_cases hn : p.1 = n
        · rw [if_pos hn, if_pos hn]
        · rw [if_neg hn, if_neg hn]; exact ih

theorem hasTimer_false_sampleCount (reg : Registry) (name : String)
    (h : hasTimer reg name = false) : sampleCount reg name = 0 := by
  induction reg with
  | nil => rfl
  | cons p tl ih =>
      rw [hasTimer_cons, Bool.or_eq_false_iff] at h
      rw [sampleCount_cons, if_neg (by simpa using h.1)]
      exact ih h.2

theorem sampleCount_append_single (reg : Registry) (name n : String)
    (c : Nat) (h : hasTimer reg n = false) :
    sampleCount (reg ++ [(name, c)]) n = if name = n then c else 0 := by
  induction reg with
  | nil =>
      by_cases hn : name = n
      · simp [sampleCount_cons, hn]
      · simp [sampleCount_cons, hn, sampleCount]
  | cons p tl ih =>
      rw [hasTimer_cons, Bool.or_eq_false_iff] at h
      rw [List.cons_append, sampleCount_cons,
        if_neg (by simpa using h.1)]
      exact ih h.2

theorem timerNames_recordSample (reg : Registry) (name : String) :
    timerNames (recordSample name reg) = timerNames reg := by
  induction reg with
  | nil => rfl
  | cons p tl ih =>
      simp only [recordSample, timerNames, List.map_cons] at *
      rw [ih]
      congr 1
      split <;> rfl

theorem sampleCount_append_other (reg : Registry) (name n : String)
    (c : Nat) (h : n ≠ name) :
    sampleCount (reg ++ [(name, c)]) n = sampleCount reg n := by
  induction reg with
  | nil =>
      rw [List.nil_append, sampleCount_cons,
        if_neg (fun hh => (h hh.symm).elim)]
  | cons p tl ih =>
      rw [List.cons_append, sampleCount_cons, sampleCount_cons]
      by_cases hp : p.1 = n
      · rw [if_pos hp, if_pos hp]
      · rw [if_neg hp, if_neg hp]
        exact ih

theorem hasTimer_getOrRegister_self (reg : Registry) (name : String) :
    hasTimer (getOrRegisterTimer name reg) name = true := by
  unfold getOrRegisterTimer
  split
  · assumption
  · simp [hasTimer, List.any_append]

theorem sampleCount_getOrRegister_self (reg : Registry) (name : String) :
    sampleCount (getOrRegisterTimer name reg) name = sampleCount reg name := by
  unfold getOrRegisterTimer
  split
  · rfl
  · rename_i h
    rw [Bool.not_eq_true] at h
    rw [sampleCount_append_single reg name name 0 h, if_pos rfl,
      hasTimer_false_sampleCount reg name h]

theorem sampleCount_getOrRegister_other (reg : Registry) (name n : String)
    (h : n ≠ name) :
    sampleCount (getOrRegisterTimer name reg) n = sampleCount reg n := by
  unfold getOrRegisterTimer
  split
  · rfl
  · exact sampleCount_append_other reg name n 0 h

theorem timerNames_getOrRegister (reg : Registry) (name : String) :
    timerNames (getOrRegisterTimer name reg) =
      if hasTimer reg name then timerNames reg
      else timerNames reg ++ [name] := by
  unfold getOrRegisterTimer
  split <;> rename_i h
  · rfl
  · simp [timerNames]

/-! ## Helper lemma on decorator action traces -/

theorem filter_isEmit_map_inner (es : List Event) :
    (es.map Action.inner).filter Action.isEmit = [] := by
  induction es with
  | nil => rfl
  | cons e tl ih => simp [Action.isEmit, ih]

/-! ## Claim theorems -/

/-- C1: for every combination of real-sink capabilities
{supports-upgrade, supports-close-notify}, the sink `makeLogger` produces
answers the runtime capability probes with exactly the input combination,
and always carries the write-tracking capability (`Status`/`Size`); no
capability of the real sink is dropped and none of the probed optional
capabilities is added. -/
theorem makeLogger_capability_exact (w : RealSinkCaps) :
    (makeLogger w).isHijacker = w.hijacker ∧
    (makeLogger w).isCloseNotifier = w.closeNotifier ∧
    (makeLogger w).tracksStatusSize = true := by
  obtain ⟨hj, cn, fl⟩ := w
  cases hj <;> cases cn <;> cases fl <;> decide

/-- C2 (code bug evidence): on a concrete request whose inner handler
writes 10 bytes, the logging decorator leaves the supplied log sink
(`out io.Writer`) completely untouched while emitting its one structured
record through the package-global logger — the record never reaches the
writer the handler was constructed with. -/
theorem serveHTTP_supplied_sink_unused :
    (serveHTTP (fun _ => "abc123") 0 [] sampleReq
        (fun r => ([Event.write 10 10], r))).2 = [] ∧
    ((serveHTTP (fun _ => "abc123") 0 [] sampleReq
        (fun r => ([Event.write 10 10], r))).1.filter Action.isEmit).length
      = 1 := by
  exact ⟨rfl, rfl⟩

/-- C3: logged-status semantics.  (i) If the trace ends its `WriteHeader`
calls with code `c ≠ 0`, the tracked status is `c` (last `setStatus` call
wins).  (ii) With no `WriteHeader` and no successful upgrade but at least
one `Write`, the status is the generic-success code 200.  (iii) With no
`WriteHeader`, no successful upgrade and no `Write`, the status stays the
unset sentinel 0. -/
theorem run_status_cases :
    (∀ pre post c, c ≠ 0 → hasWriteHeader post = false →
      (run (pre ++ Event.writeHeader c :: post)).status = c) ∧
    (∀ es, hasWriteHeader es = false → hasSuccessfulHijack es = false →
      hasWrite es = true → (run es).status = 200) ∧
    (∀ es, hasWriteHeader es = false → hasSuccessfulHijack es = false →
      hasWrite es = false → (run es).status = 0) := by
  refine ⟨?_, ?_, ?_⟩
  · intro pre post c hc hwh
    unfold run
    rw [List.foldl_append, List.foldl_cons]
    exact foldl_step_status_stable post _ c rfl hc
      (writeHeadersEq_of_no_wh c post hwh)
  · intro es hwh hhj hw
    unfold run
    rw [foldl_step_status_no_wh es _ hwh hhj]
    simp [initLogger, hw]
  · intro es hwh hhj hw
    unfold run
    rw [foldl_step_status_no_wh es _ hwh hhj]
    simp [initLogger, hw]

theorem run_status_cases_witness :
    (run ([] ++ Event.writeHeader 404 :: [Event.write 5 5])).status = 404 ∧
    (run [Event.write 3 3]).status = 200 ∧
    (run [Event.flush]).status = 0 :=
  ⟨run_status_cases.1 [] [Event.write 5 5] 404 (by decide) (by decide),
   run_status_cases.2.1 [Event.write 3 3] (by decide) (by decide)
     (by decide),
   run_status_cases.2.2 [Event.flush] (by decide) (by decide) (by decide)⟩

/-- C4: when the real sink accepts every written byte (the error-free
`io.Writer` contract), the tracked `size` equals the sum of the byte
counts the inner handler passed to its `Write` calls. -/
theorem run_size_eq_passedSum (es : List Event)
    (h : writesAccepted es = true) : (run es).size = passedSum es := by
  unfold run
  rw [foldl_step_size, retSum_eq_passedSum es h]
  simp [initLogger]

theorem run_size_witness :
    writesAccepted
      [Event.write 5 5, Event.writeHeader 404, Event.write 2 2] = true ∧
    (run [Event.write 5 5, Event.writeHeader 404, Event.write 2 2]).size =
      passedSum [Event.write 5 5, Event.writeHeader 404, Event.write 2 2] :=
  ⟨by decide, run_size_eq_passedSum _ (by decide)⟩

/-- C5: write-tracking invariant.  (a) After any byte is written or any
header finalized (with valid non-zero codes), the status is no longer the
unset sentinel 0.  (b) Once the status holds a non-zero value, no suffix
of further operations whose finalization calls all carry that same value
(normal operation) ever changes it. -/
theorem status_invariant :
    (∀ es, writeHeadersNonzero es = true →
      (hasWrite es = true ∨ hasWriteHeader es = true) →
      (run es).status ≠ 0) ∧
    (∀ pre post s, (run pre).status = s → s ≠ 0 →
      writeHeadersEq s post = true → (run (pre ++ post)).status = s) := by
  constructor
  · intro es hwh h
    exact foldl_step_status_ne_zero es initLogger hwh (Or.inr h)
  · intro pre post s hpre hs heq
    unfold run
    rw [List.foldl_append]
    exact foldl_step_status_stable post _ s hpre hs heq

theorem status_invariant_witness :
    (run [Event.write 4 4]).status ≠ 0 ∧
    (run ([Event.writeHeader 503] ++
      [Event.writeHeader 503, Event.write 7 7])).status = 503 :=
  ⟨status_invariant.1 [Event.write 4 4] (by decide) (Or.inl (by decide)),
   status_invariant.2 [Event.writeHeader 503]
     [Event.writeHeader 503, Event.write 7 7] 503 (by decide) (by decide)
     (by decide)⟩

/-- C6: `hijackLogger.Hijack` hands the real sink's result triple
(including any failure) back to the caller unchanged; on success it sets
the status to 101 exactly when it was still unset (leaving `size` alone),
and on failure it leaves the tracked state untouched. -/
theorem hijack_forwarding (st : LoggerState) (res : HijackResult) :
    (hijackLoggerHijack st res).2 = res ∧
    (res.err = none → st.status = 0 →
      (hijackLoggerHijack st res).1 = { st with status := 101 }) ∧
    (res.err = none → st.status ≠ 0 →
      (hijackLoggerHijack st res).1 = st) ∧
    (res.err ≠ none → (hijackLoggerHijack st res).1 = st) := by
  refine ⟨rfl, ?_, ?_, ?_⟩
  · intro he h0
    simp [hijackLoggerHijack, he, h0]
  · intro he h0
    simp [hijackLoggerHijack, he, h0]
  · intro he
    have : res.err.isNone = false := by
      cases hres : res.err with
      | none => exact absurd hres he
      | some e => rfl
    simp [hijackLoggerHijack, this]

theorem hijack_forwarding_witness :
    (hijackLoggerHijack ⟨0, 0⟩ ⟨1, 2, none⟩).1 = ⟨101, 0⟩ ∧
    (hijackLoggerHijack ⟨200, 5⟩ ⟨1, 2, some "refused"⟩).1 = ⟨200, 5⟩ :=
  ⟨(hijack_forwarding ⟨0, 0⟩ ⟨1, 2, none⟩).2.1 rfl rfl,
   (hijack_forwarding ⟨200, 5⟩ ⟨1, 2, some "refused"⟩).2.2.2 (by simp)⟩

/-- C7: for every request the logging decorator's action trace contains
exactly one emitted log record, and the trace is precisely the inner
handler's sink operations followed by that one emission, whose record
carries the status and size obtained by folding the complete inner trace —
so the record is produced only after the inner handler has fully returned
and reflects the final observed state, never an interim one. -/
theorem serveHTTP_emits_once_after_inner (getTid : Request → String)
    (now : Nat) (out : List String) (req : Request)
    (inner : Request → List Event × Request) :
    ((serveHTTP getTid now out req inner).1.filter Action.isEmit).length
        = 1 ∧
    (serveHTTP getTid now out req inner).1 =
      ((inner req).1.map Action.inner) ++
        [Action.emit (mkLogRecord (inner req).2 (getTid req) req.url now
          (run (inner req).1).status (run (inner req).1).size)] := by
  constructor
  · show ((((inner req).1.map Action.inner) ++
      [Action.emit _]).filter Action.isEmit).length = 1
    rw [List.filter_append, filter_isEmit_map_inner]
    rfl
  · rfl

/-- C8: the logged URI is the transport-level raw request URI; for an
HTTP/2 CONNECT request the authority (Host field) is used instead; and
whenever the resulting string is empty the URI reconstructed from the URL
snapshot is logged. -/
theorem logged_uri_cases (w : List String) (req : Request) (tid : String)
    (u : URL) (ts st sz : Nat) (r : LogRecord)
    (hr : r ∈ (writeRequestLog w req tid u ts st sz).2) :
    (¬(req.protoMajor = 2 ∧ req.method = "CONNECT") →
      req.requestURI ≠ "" → r.uri = req.requestURI) ∧
    ((req.protoMajor = 2 ∧ req.method = "CONNECT") →
      req.host ≠ "" → r.uri = req.host) ∧
    (¬(req.protoMajor = 2 ∧ req.method = "CONNECT") →
      req.requestURI = "" → r.uri = u.reconstructedURI) ∧
    ((req.protoMajor = 2 ∧ req.method = "CONNECT") →
      req.host = "" → r.uri = u.reconstructedURI) := by
  simp only [writeRequestLog, List.mem_singleton] at hr
  subst hr
  refine ⟨?_, ?_, ?_, ?_⟩ <;> intro hcond hempty <;>
    simp [mkLogRecord, logUri, hcond, hempty]

theorem logged_uri_witness :
    (mkLogRecord connectReq "tid0" sampleURL 0 0 0).uri
      = "proxy.example:443" := by
  have h := logged_uri_cases [] connectReq "tid0" sampleURL 0 0 0
    (mkLogRecord connectReq "tid0" sampleURL 0 0 0)
    (by simp [writeRequestLog])
  have h2 := h.2.1 ⟨rfl, rfl⟩ (by decide)
  simpa [connectReq] using h2

/-- C9: the metrics decorator returns the response exactly as the inner
handler produced it from the unchanged request and sink, adds exactly one
sample to the timer named by the request method, changes no other timer,
and touches the registry's timer set only by lazily creating that timer
when it did not yet exist. -/
theorem metrics_handler_spec {W : Type} (inner : Request → W → W)
    (reg : Registry) (req : Request) (w : W) :
    (httpMetricsServeHTTP inner reg req w).2 = inner req w ∧
    sampleCount (httpMetricsServeHTTP inner reg req w).1 req.method =
      sampleCount reg req.method + 1 ∧
    (∀ n, n ≠ req.method →
      sampleCount (httpMetricsServeHTTP inner reg req w).1 n =
        sampleCount reg n) ∧
    timerNames (httpMetricsServeHTTP inner reg req w).1 =
      (if hasTimer reg req.method then timerNames reg
       else timerNames reg ++ [req.method]) := by
  refine ⟨rfl, ?_, ?_, ?_⟩
  · show sampleCount
      (recordSample req.method (getOrRegisterTimer req.method reg))
      req.method = sampleCount reg req.method + 1
    rw [sampleCount_recordSample_self _ _
      (hasTimer_getOrRegister_self reg req.method),
      sampleCount_getOrRegister_self]
  · intro n hn
    show sampleCount
      (recordSample req.method (getOrRegisterTimer req.method reg)) n =
      sampleCount reg n
    rw [sampleCount_recordSample_other _ _ _ hn,
      sampleCount_getOrRegister_other _ _ _ hn]
  · show timerNames
      (recordSample req.method (getOrRegisterTimer req.method reg)) = _
    rw [timerNames_recordSample, timerNames_getOrRegister]

theorem metrics_handler_witness :
    sampleCount
      (httpMetricsServeHTTP (fun _ w => w + 1) [("POST", 3)] sampleReq 0).1
      "POST" = sampleCount [("POST", 3)] "POST" :=
  (metrics_handler_spec (fun _ w => w + 1) [("POST", 3)] sampleReq 0).2.2.1
    "POST" (by decide)

/-- C10: the produced tracking sink always answers the `http.Flusher`
probe positively, and calling `Flush` is safe for every real sink: a
forwarded flush when the real sink is a Flusher, a harmless no-op (the
probe inside `responseLogger.Flush` is guarded) when it is not. -/
theorem flush_safe (s : RealSink) :
    (makeLogger s.caps).isFlusher = true ∧
    (s.caps.flusher = false → responseLoggerFlush s = s) ∧
    (s.caps.flusher = true →
      responseLoggerFlush s = { s with flushCount := s.flushCount + 1 }) := by
  refine ⟨rfl, ?_, ?_⟩
  · intro h
    simp [responseLoggerFlush, h]
  · intro h
    simp [responseLoggerFlush, h]

theorem flush_safe_witness :
    responseLoggerFlush ⟨⟨false, false, false⟩, 0⟩
        = ⟨⟨false, false, false⟩, 0⟩ ∧
    responseLoggerFlush ⟨⟨false, false, true⟩, 2⟩
        = ⟨⟨false, false, true⟩, 3⟩ :=
  ⟨(flush_safe ⟨⟨false, false, false⟩, 0⟩).2.1 rfl,
   (flush_safe ⟨⟨false, false, true⟩, 2⟩).2.2 rfl⟩

end BaseFtRwApp
